import Mathlib

/-! Thermal camera rendering pipeline.

Shallow embedding of `PlatformIO/Projects/IR Camera/src/main.cpp`: the per-frame auto-ranging
(`loop`, step 2), the heat-map colour mapping (`mapTempToColor`), the magnified raster
(`loop`, step 3) and the overlay (`drawInterface`).

Samples are rationals (`float` values without NaN or infinities). `loop` and `mapTempToColor`
are read in exact arithmetic; `autoRangeFloat` is step 2 of `loop` with the rounding of its two
arithmetic operations. Calls on the display, the SPI bus and the serial port are recorded, in
program order, as a list of `Op`.
-/

namespace IRCamera

/-! ## Data model -/

/-- The frame buffer `float frame[32 * 24]`, row-major, 768 samples. -/
abbrev Frame := Fin 768 → ℚ

/-- The constant `PIXEL_SCALE` (scale factor 10). -/
def PIXEL_SCALE : ℤ := 10

/-- What the sketch takes from the Adafruit_ILI9341 driver, which is outside the repository:
the panel size reported by `tft.width()` and `tft.height()`, the colour packing `tft.color565`
and the colour constants `ILI9341_WHITE` and `ILI9341_BLACK`. -/
structure Tft where
  width : ℤ
  height : ℤ
  color565 : ℕ → ℕ → ℕ → ℕ
  ILI9341_WHITE : ℕ
  ILI9341_BLACK : ℕ

/-- One call on the serial port, the SPI bus or the display, as issued by the sketch. -/
inductive Op where
  | serialPrintln (text : String)
  | spiBeginTransaction
  | spiEndTransaction
  | fillRect (x y w h : ℤ) (color : ℕ)
  | drawFastHLine (x y w : ℤ) (color : ℕ)
  | drawFastVLine (x y h : ℤ) (color : ℕ)
  | setTextSize (s : ℕ)
  | setTextColor (c bg : ℕ)
  | setCursor (x y : ℤ)
  | print (text : String)
  deriving DecidableEq

/-- The globals `frame`, `minTemp` and `maxTemp`. -/
structure State where
  frame : Frame
  minTemp : ℚ
  maxTemp : ℚ

/-- The globals as initialised at program start. -/
def State.init : State := ⟨fun _ => 0, 20, 40⟩

/-! ## Auto-ranging: step 2 of `loop` -/

/-- Body of the loop `for (int i = 0; i < 768; i++)` for one sample `t = frame[i]`; the pair is
`(minTemp, maxTemp)`. -/
def minMaxStep (acc : ℚ × ℚ) (t : ℚ) : ℚ × ℚ :=
  let minTemp := if t < acc.1 then t else acc.1
  let maxTemp := if t > acc.2 then t else acc.2
  (minTemp, maxTemp)

/-- The min/max pass: seeds `minTemp = 1000.0`, `maxTemp = -1000.0`, then the 768 iterations. -/
def minMaxPass (frame : Frame) : ℚ × ℚ :=
  (List.finRange 768).foldl (fun acc i => minMaxStep acc (frame i)) (1000, -1000)

/-- The pass followed by `if ((maxTemp - minTemp) < 1.0) maxTemp = minTemp + 1.0;`, in exact
arithmetic. -/
def autoRange (frame : Frame) : ℚ × ℚ :=
  let pass := minMaxPass frame
  let minTemp := pass.1
  let maxTemp := pass.2
  let maxTemp := if maxTemp - minTemp < 1 then minTemp + 1 else maxTemp
  (minTemp, maxTemp)

/-! ## Colour mapping: `mapTempToColor` -/

/-- Conversion of a floating value to an integer: the fractional part is discarded. -/
def truncToInt (x : ℚ) : ℤ := if 0 ≤ x then ⌊x⌋ else ⌈x⌉

/-- Conversion of a floating value to `uint8_t`, out-of-range values taken modulo 256. -/
def toUint8 (x : ℚ) : ℕ := (truncToInt x % 256).toNat

/-- The channels `(r, g, b)` that `mapTempToColor` hands to `tft.color565`. -/
def mapTempToColorRGB (val minVal maxVal : ℚ) : ℕ × ℕ × ℕ :=
  let val := if val < minVal then minVal else val
  let val := if val > maxVal then maxVal else val
  let rel := (val - minVal) / (maxVal - minVal)
  if rel < 1 / 2 then
    let localRel := rel * 2
    let b := toUint8 (255 * (1 - localRel))
    let g := toUint8 (255 * localRel)
    (0, g, b)
  else
    let localRel := (rel - 1 / 2) * 2
    let g := toUint8 (255 * (1 - localRel))
    let r := toUint8 (255 * localRel)
    (r, g, 0)

/-- The function `mapTempToColor`: the channels packed by `tft.color565`. -/
def mapTempToColor (tft : Tft) (val minVal maxVal : ℚ) : ℕ :=
  let rgb := mapTempToColorRGB val minVal maxVal
  tft.color565 rgb.1 rgb.2.1 rgb.2.2

/-! ## Raster and overlay: steps 3 and 4 of `loop` -/

/-- The nested loops over `h < 24` and `w < 32`: one `fillRect` per cell. -/
def drawThermalImage (tft : Tft) (frame : Frame) (minTemp maxTemp : ℚ) : List Op :=
  (List.finRange 24).flatMap fun h =>
    (List.finRange 32).map fun w =>
      let t := frame ⟨h.val * 32 + w.val, by have := h.isLt; have := w.isLt; omega⟩
      let color := mapTempToColor tft t minTemp maxTemp
      Op.fillRect ((w.val : ℤ) * PIXEL_SCALE) ((h.val : ℤ) * PIXEL_SCALE) PIXEL_SCALE
        PIXEL_SCALE color

/-- Modelled from the spec: the digits that `printFloat` writes after the decimal point, one per
step (part of the class `Print` of the Arduino core, not under `src/`). -/
def fracDigits : ℚ → ℕ → String
  | _, 0 => ""
  | remainder, n + 1 =>
    let scaled := remainder * 10
    let toPrint := ⌊scaled⌋.toNat
    Nat.repr toPrint ++ fracDigits (scaled - toPrint) n

/-- Modelled from the spec: the text that `tft.print(number, digits)` writes for a floating
value. The class `Print` that implements it belongs to the Arduino core and is not under `src/`;
the spec says the centre value is "formatted to one decimal place" and the range bounds are
"integer-rounded text". The value is rounded half away from zero to `digits` decimal places and
written in decimal, with a decimal point exactly when `digits > 0`. -/
def printFloat (number : ℚ) (digits : ℕ) : String :=
  let sign := if number < 0 then "-" else ""
  let rounded := |number| + (1 / 2) / 10 ^ digits
  let intPart := ⌊rounded⌋.toNat
  sign ++ Nat.repr intPart ++ (if 0 < digits then "." else "")
    ++ fracDigits (rounded - intPart) digits

/-- The function `drawInterface`, reading the globals `frame`, `minTemp` and `maxTemp`. -/
def drawInterface (tft : Tft) (frame : Frame) (minTemp maxTemp : ℚ) : List Op :=
  let centerX := Int.tdiv tft.width 2
  let centerY := Int.tdiv tft.height 2
  let centerTemp := frame ⟨12 * 32 + 16, by decide⟩
  [ Op.drawFastHLine (centerX - 10) centerY 20 tft.ILI9341_WHITE,
    Op.drawFastVLine centerX (centerY - 10) 20 tft.ILI9341_WHITE,
    Op.setTextSize 1,
    Op.setTextColor tft.ILI9341_WHITE tft.ILI9341_BLACK,
    Op.setCursor (centerX + 5) (centerY + 5),
    Op.print (printFloat centerTemp 1),
    Op.print "C",
    Op.setCursor 5 220,
    Op.print "Min: ",
    Op.print (printFloat minTemp 0),
    Op.setCursor 240 220,
    Op.print "Max: ",
    Op.print (printFloat maxTemp 0) ]

/-- One iteration of `loop`. The call `mlx.getFrame(frame)` is given by its outcome: the status
it returns and the contents `sensed` it leaves in the buffer. The result is the globals after the
iteration and the calls issued, in order. -/
def loop (tft : Tft) (s : State) (status : ℤ) (sensed : Frame) : State × List Op :=
  if status ≠ 0 then
    ({ s with frame := sensed }, [Op.serialPrintln "Failed to read from sensor"])
  else
    let frame := sensed
    let range := autoRange frame
    let minTemp := range.1
    let maxTemp := range.2
    ({ frame := frame, minTemp := minTemp, maxTemp := maxTemp },
      [Op.spiBeginTransaction] ++ drawThermalImage tft frame minTemp maxTemp
        ++ drawInterface tft frame minTemp maxTemp ++ [Op.spiEndTransaction])


/-! ## Specification vocabulary -/

/-- The range the spec's RangeEstimator describes for a frame: `low` is the smallest sample and
`high` is the largest sample, replaced by `low + 1` when the span is below 1. -/
def IsFrameRange (frame : Frame) (range : ℚ × ℚ) : Prop :=
  IsLeast (Set.range frame) range.1 ∧
    ∃ largest, IsGreatest (Set.range frame) largest ∧
      range.2 = if largest - range.1 ≥ 1 then largest else range.1 + 1

/-- The range held in the globals `minTemp` and `maxTemp`. -/
def State.range (s : State) : ℚ × ℚ := (s.minTemp, s.maxTemp)

/-- Modelled from the spec: a colour packing for concrete instances, the "16-bit 5-6-5" packing
the spec names: 5 bits of red, 6 of green, 5 of blue. -/
def rgb565 (r g b : ℕ) : ℕ := ((r &&& 0xF8) <<< 8) ||| ((g &&& 0xFC) <<< 3) ||| (b >>> 3)

/-- Modelled from the spec: driver values for concrete instances, the 320 by 240 panel of the
spec with 5-6-5 colours, white `0xFFFF` and black `0x0000`. -/
def Tft.ili9341 : Tft := ⟨320, 240, rgb565, 0xFFFF, 0x0000⟩

/-- Whether a recorded call is `tft.fillRect`. -/
def Op.isFillRect : Op → Bool
  | Op.fillRect _ _ _ _ _ => true
  | _ => false

/-- Whether a recorded call goes to the display or the SPI bus; only serial output does not. -/
def Op.isDisplayOp : Op → Bool
  | Op.serialPrintln _ => false
  | _ => true

/-- The pixels painted by a `fillRect(x, y, w, h, color)` call: columns `x` to `x + w - 1` and
rows `y` to `y + h - 1`. No other call is counted. -/
def Op.covers (op : Op) (px py : ℤ) : Prop :=
  match op with
  | Op.fillRect x y w h _ => x ≤ px ∧ px < x + w ∧ y ≤ py ∧ py < y + h
  | _ => False

/-- The ScreenCell call the spec describes for frame index `k`, that is row `k / 32` and column
`k % 32`: the rectangle `(col * 10, row * 10, 10, 10)` in the colour of sample `k`. -/
def cellRect (tft : Tft) (frame : Frame) (minTemp maxTemp : ℚ) (k : Fin 768) : Op :=
  Op.fillRect (((k.val % 32 : ℕ) : ℤ) * 10) (((k.val / 32 : ℕ) : ℤ) * 10) 10 10
    (mapTempToColor tft (frame k) minTemp maxTemp)

/-- The text written from the current cursor position on: the `print` calls up to the next
`setCursor`, concatenated. -/
def printedText : List Op → String
  | [] => ""
  | Op.setCursor _ _ :: _ => ""
  | Op.print text :: rest => text ++ printedText rest
  | _ :: rest => printedText rest

/-- The text runs of a trace: for each `setCursor(x, y)` the position and the text printed there. -/
def textRuns : List Op → List (ℤ × ℤ × String)
  | [] => []
  | Op.setCursor x y :: rest => (x, y, printedText rest) :: textRuns rest
  | _ :: rest => textRuns rest

/-- The frame of the spec's second scenario: 40 at index `k`, 20 everywhere else. -/
def hotFrame (k : Fin 768) : Frame := fun i => if i = k then 40 else 20

/-- Whether a recorded call writes on the display: a rectangle, a line or text. -/
def Op.isDisplayWrite : Op → Bool
  | Op.fillRect _ _ _ _ _ => true
  | Op.drawFastHLine _ _ _ _ => true
  | Op.drawFastVLine _ _ _ _ => true
  | Op.print _ => true
  | _ => false

/-- The value of `val` after the two clamping assignments at the head of `mapTempToColor`. -/
def constrainVal (val minVal maxVal : ℚ) : ℚ :=
  let val := if val < minVal then minVal else val
  if val > maxVal then maxVal else val

/-- The local `rel` of `mapTempToColor`, computed from the clamped value. -/
def relOf (val minVal maxVal : ℚ) : ℚ :=
  (constrainVal val minVal maxVal - minVal) / (maxVal - minVal)

/-- One iteration of the min/max loop when the seeds are the infinities: `none` stands for the
seed (`+∞` for the minimum, `-∞` for the maximum), which every sample beats. -/
def infStep (acc : Option ℚ × Option ℚ) (t : ℚ) : Option ℚ × Option ℚ :=
  let minTemp := match acc.1 with
    | none => some t
    | some m => if t < m then some t else some m
  let maxTemp := match acc.2 with
    | none => some t
    | some m => if t > m then some t else some m
  (minTemp, maxTemp)

/-- The min/max pass of `loop` with the seeds `1000.0` and `-1000.0` replaced by `+∞` and `-∞`. -/
def infPass (frame : Frame) : Option ℚ × Option ℚ :=
  (List.finRange 768).foldl (fun acc i => infStep acc (frame i)) (none, none)

end IRCamera

/-! Weather station: the icon of `drawWeatherIcon`.

Shallow embedding of `drawWeatherIcon` in `PlatformIO/Projects/Weather Station/src/main.cpp`.
-/

namespace WeatherStation

/-- The colour constants of the display driver that `drawWeatherIcon` names. -/
inductive Color where
  | ILI9341_YELLOW
  | ILI9341_LIGHTGREY
  | ILI9341_BLUE
  | ILI9341_WHITE
  | ILI9341_RED
  deriving DecidableEq

/-- One call on the display, as issued by `drawWeatherIcon`. -/
inductive DrawOp where
  | fillCircle (x y r : ℤ) (color : Color)
  | drawCircle (x y r : ℤ) (color : Color)
  | drawLine (x0 y0 x1 y1 : ℤ) (color : Color)
  | drawRect (x y w h : ℤ) (color : Color)
  | setTextColor (c : Color)
  | setCursor (x y : ℤ)
  | print (text : String)
  deriving DecidableEq

/-- Whether the characters `s` begin with the characters `p`. -/
def startsWithChars : List Char → List Char → Bool
  | _, [] => true
  | [], _ :: _ => false
  | c :: cs, p :: ps => c == p && startsWithChars cs ps

/-- The method `String::startsWith` of the Arduino core: whether the text begins with `p`. -/
def startsWith (s p : String) : Bool := startsWithChars s.data p.data

/-- The function `drawWeatherIcon`; the parameter `color` is not used by the code. -/
def drawWeatherIcon (icon_code : String) (x y : ℤ) (color : ℤ) : List DrawOp :=
  if startsWith icon_code "01" then
    [DrawOp.fillCircle x y 20 Color.ILI9341_YELLOW]
  else if startsWith icon_code "0" || startsWith icon_code "04" then
    [DrawOp.fillCircle x y 15 Color.ILI9341_LIGHTGREY,
      DrawOp.fillCircle (x + 10) (y + 5) 15 Color.ILI9341_LIGHTGREY]
  else if startsWith icon_code "09" || startsWith icon_code "10" then
    [DrawOp.fillCircle x y 15 Color.ILI9341_LIGHTGREY,
      DrawOp.drawLine (x - 10) (y + 20) (x - 5) (y + 25) Color.ILI9341_BLUE,
      DrawOp.drawLine x (y + 20) (x + 5) (y + 25) Color.ILI9341_BLUE]
  else if startsWith icon_code "13" then
    [DrawOp.fillCircle x y 15 Color.ILI9341_WHITE,
      DrawOp.drawCircle x y 10 Color.ILI9341_WHITE]
  else
    [DrawOp.drawRect (x - 10) (y - 10) 20 20 Color.ILI9341_RED,
      DrawOp.setTextColor Color.ILI9341_RED,
      DrawOp.setCursor (x - 5) (y - 5),
      DrawOp.print "?"]

/-- The rain/showers icon: one light-grey cloud circle of radius 15 and two blue drop lines. -/
def rainIcon (x y : ℤ) : List DrawOp :=
  [DrawOp.fillCircle x y 15 Color.ILI9341_LIGHTGREY,
    DrawOp.drawLine (x - 10) (y + 20) (x - 5) (y + 25) Color.ILI9341_BLUE,
    DrawOp.drawLine x (y + 20) (x + 5) (y + 25) Color.ILI9341_BLUE]

/-- The clouds icon: two light-grey circles of radius 15. -/
def cloudsIcon (x y : ℤ) : List DrawOp :=
  [DrawOp.fillCircle x y 15 Color.ILI9341_LIGHTGREY,
    DrawOp.fillCircle (x + 10) (y + 5) 15 Color.ILI9341_LIGHTGREY]

end WeatherStation

namespace IRCamera

/-! ## Step 2 of `loop` in float arithmetic -/

/-- Rounding to the nearest integer, ties to the even one. -/
def roundNearestEven (x : ℚ) : ℤ :=
  let f := ⌊x⌋
  let r := x - f
  if r < 1 / 2 then f
  else if 1 / 2 < r then f + 1
  else if f % 2 = 0 then f else f + 1

/-- Rounding of a rational to the nearest binary floating-point value with `p` significant bits
and least normal exponent `emin` (IEEE 754 round to nearest, ties to even, with subnormals).
Overflow to infinity is not modelled. -/
def roundBinary (p : ℕ) (emin : ℤ) (x : ℚ) : ℚ :=
  if x = 0 then 0
  else
    let e := max (Int.log 2 |x|) emin
    let ulp : ℚ := 2 ^ (e - (p - 1))
    roundNearestEven (x / ulp) * ulp

/-- Rounding to `float` (binary32). -/
def toFloat (x : ℚ) : ℚ := roundBinary 24 (-126) x

/-- Rounding to `double` (binary64). -/
def toDouble (x : ℚ) : ℚ := roundBinary 53 (-1022) x

/-- Step 2 of `loop` with its two arithmetic operations rounded as the code computes them: the
difference `maxTemp - minTemp` is a `float` subtraction, and `minTemp + 1.0` is a `double` sum
stored in the `float` variable `maxTemp`. The pass itself only compares and copies samples. -/
def autoRangeFloat (frame : Frame) : ℚ × ℚ :=
  let pass := minMaxPass frame
  let minTemp := pass.1
  let maxTemp := pass.2
  let maxTemp := if toFloat (maxTemp - minTemp) < 1 then toFloat (toDouble (minTemp + 1))
    else maxTemp
  (minTemp, maxTemp)

/-- The range of the spec's RangeEstimator with the arithmetic of the code: `low` is the smallest
sample and `high` is the largest sample, replaced by the stored `float` sum `low + 1.0` when the
`float` difference of the two is below 1. -/
def IsFrameRangeFloat (frame : Frame) (range : ℚ × ℚ) : Prop :=
  IsLeast (Set.range frame) range.1 ∧
    ∃ largest, IsGreatest (Set.range frame) largest ∧
      range.2 = if toFloat (largest - range.1) ≥ 1 then largest
        else toFloat (toDouble (range.1 + 1))

/-- The post-pass rule of `loop`, in float arithmetic, on the outcome of the pass seeded with the
infinities; `none` if a seed survived the pass. -/
def postPassInfFloat : Option ℚ × Option ℚ → Option (ℚ × ℚ)
  | (some minTemp, some maxTemp) =>
    some (minTemp, if toFloat (maxTemp - minTemp) < 1 then toFloat (toDouble (minTemp + 1))
      else maxTemp)
  | _ => none

/-- The range estimator seeded with the infinities, in float arithmetic: the pass `infPass`
followed by the post-pass rule of `loop`. -/
def autoRangeInfFloat (frame : Frame) : Option (ℚ × ℚ) :=
  postPassInfFloat (infPass frame)

/-! ## Lemmas on the min/max pass -/

theorem minMaxStep_eq (acc : ℚ × ℚ) (t : ℚ) :
    minMaxStep acc t = (min acc.1 t, max acc.2 t) := by
  unfold minMaxStep
  ext
  · by_cases h : t < acc.1
    · simp [h, min_eq_right h.le]
    · simp [h, min_eq_left (not_lt.mp h)]
  · by_cases h : t > acc.2
    · simp [h, max_eq_right h.le]
    · simp [h, max_eq_left (not_lt.mp h)]

theorem foldl_minMaxStep (l : List ℚ) (a b : ℚ) :
    l.foldl minMaxStep (a, b) = (l.foldl min a, l.foldl max b) := by
  induction l generalizing a b with
  | nil => rfl
  | cons t l ih => simp only [List.foldl_cons, minMaxStep_eq, ih]

theorem foldl_min_le_seed (l : List ℚ) (a : ℚ) : l.foldl min a ≤ a := by
  induction l generalizing a with
  | nil => exact le_refl a
  | cons t l ih => exact le_trans (ih (min a t)) (min_le_left a t)

theorem foldl_min_le_of_mem (l : List ℚ) (a x : ℚ) (hx : x ∈ l) : l.foldl min a ≤ x := by
  induction l generalizing a with
  | nil => cases hx
  | cons t l ih =>
    rcases List.mem_cons.mp hx with h | h
    · subst h
      exact le_trans (foldl_min_le_seed l (min a x)) (min_le_right a x)
    · exact ih (min a t) h

theorem foldl_min_mem (l : List ℚ) (a : ℚ) : l.foldl min a = a ∨ l.foldl min a ∈ l := by
  induction l generalizing a with
  | nil => exact Or.inl rfl
  | cons t l ih =>
    rcases ih (min a t) with h | h
    · rcases min_choice a t with h2 | h2
      · left
        exact h.trans h2
      · right
        show List.foldl min (min a t) l ∈ t :: l
        rw [h, h2]
        exact List.mem_cons_self t l
    · right
      exact List.mem_cons_of_mem t h

theorem seed_le_foldl_max (l : List ℚ) (b : ℚ) : b ≤ l.foldl max b := by
  induction l generalizing b with
  | nil => exact le_refl b
  | cons t l ih => exact le_trans (le_max_left b t) (ih (max b t))

theorem le_foldl_max_of_mem (l : List ℚ) (b x : ℚ) (hx : x ∈ l) : x ≤ l.foldl max b := by
  induction l generalizing b with
  | nil => cases hx
  | cons t l ih =>
    rcases List.mem_cons.mp hx with h | h
    · subst h
      exact le_trans (le_max_right b x) (seed_le_foldl_max l (max b x))
    · exact ih (max b t) h

theorem foldl_max_mem (l : List ℚ) (b : ℚ) : l.foldl max b = b ∨ l.foldl max b ∈ l := by
  induction l generalizing b with
  | nil => exact Or.inl rfl
  | cons t l ih =>
    rcases ih (max b t) with h | h
    · rcases max_choice b t with h2 | h2
      · left
        exact h.trans h2
      · right
        show List.foldl max (max b t) l ∈ t :: l
        rw [h, h2]
        exact List.mem_cons_self t l
    · right
      exact List.mem_cons_of_mem t h

theorem foldl_finRange_minMax {n : ℕ} (f : Fin n → ℚ) (a b : ℚ) :
    (List.finRange n).foldl (fun acc i => minMaxStep acc (f i)) (a, b)
      = ((List.ofFn f).foldl min a, (List.ofFn f).foldl max b) := by
  rw [← foldl_minMaxStep, List.ofFn_eq_map, List.foldl_map]

theorem foldl_finRange_fst_eq {n : ℕ} (f : Fin n → ℚ) (a b m : ℚ) (hseed : m ≤ a)
    (hle : ∀ i, m ≤ f i) (hmem : m = a ∨ ∃ i, f i = m) :
    ((List.finRange n).foldl (fun acc i => minMaxStep acc (f i)) (a, b)).1 = m := by
  rw [foldl_finRange_minMax]
  apply le_antisymm
  · rcases hmem with h | ⟨i, h⟩
    · rw [h]; exact foldl_min_le_seed _ _
    · exact foldl_min_le_of_mem _ _ _ ((List.mem_ofFn f m).mpr ⟨i, h⟩)
  · rcases foldl_min_mem (List.ofFn f) a with h | h
    · show m ≤ (List.ofFn f).foldl min a
      rw [h]; exact hseed
    · obtain ⟨i, hi⟩ := (List.mem_ofFn f _).mp h
      show m ≤ (List.ofFn f).foldl min a
      rw [← hi]; exact hle i

theorem foldl_finRange_snd_eq {n : ℕ} (f : Fin n → ℚ) (a b m : ℚ) (hseed : b ≤ m)
    (hle : ∀ i, f i ≤ m) (hmem : m = b ∨ ∃ i, f i = m) :
    ((List.finRange n).foldl (fun acc i => minMaxStep acc (f i)) (a, b)).2 = m := by
  rw [foldl_finRange_minMax]
  apply le_antisymm
  · rcases foldl_max_mem (List.ofFn f) b with h | h
    · show (List.ofFn f).foldl max b ≤ m
      rw [h]; exact hseed
    · obtain ⟨i, hi⟩ := (List.mem_ofFn f _).mp h
      show (List.ofFn f).foldl max b ≤ m
      rw [← hi]; exact hle i
  · rcases hmem with h | ⟨i, h⟩
    · rw [h]; exact seed_le_foldl_max _ _
    · exact le_foldl_max_of_mem _ _ _ ((List.mem_ofFn f m).mpr ⟨i, h⟩)

/-- The low end left by the pass is any value `m` that bounds the seed and the samples from
below and is the seed or one of the samples. -/
theorem minMaxPass_fst_eq (frame : Frame) (m : ℚ) (hseed : m ≤ 1000) (hle : ∀ i, m ≤ frame i)
    (hmem : m = 1000 ∨ ∃ i, frame i = m) : (minMaxPass frame).1 = m :=
  foldl_finRange_fst_eq frame 1000 (-1000) m hseed hle hmem

/-- The high end left by the pass, characterised like the low end. -/
theorem minMaxPass_snd_eq (frame : Frame) (m : ℚ) (hseed : -1000 ≤ m) (hle : ∀ i, frame i ≤ m)
    (hmem : m = -1000 ∨ ∃ i, frame i = m) : (minMaxPass frame).2 = m :=
  foldl_finRange_snd_eq frame 1000 (-1000) m hseed hle hmem

theorem autoRange_eq (frame : Frame) :
    autoRange frame
      = ((minMaxPass frame).1,
          if (minMaxPass frame).2 - (minMaxPass frame).1 < 1 then (minMaxPass frame).1 + 1
          else (minMaxPass frame).2) := rfl

theorem loop_ok (tft : Tft) (s : State) (sensed : Frame) :
    loop tft s 0 sensed
      = ({ frame := sensed, minTemp := (autoRange sensed).1, maxTemp := (autoRange sensed).2 },
          [Op.spiBeginTransaction]
            ++ drawThermalImage tft sensed (autoRange sensed).1 (autoRange sensed).2
            ++ drawInterface tft sensed (autoRange sensed).1 (autoRange sensed).2
            ++ [Op.spiEndTransaction]) := by
  unfold loop
  rw [if_neg (by decide)]

theorem pair_fst {α β : Type} (a : α) (b : β) : (a, b).1 = a := rfl

theorem pair_snd {α β : Type} (a : α) (b : β) : (a, b).2 = b := rfl

theorem State.minTemp_mk (f : Frame) (a b : ℚ) : (State.mk f a b).minTemp = a := rfl

theorem State.maxTemp_mk (f : Frame) (a b : ℚ) : (State.mk f a b).maxTemp = b := rfl

theorem State.range_mk (f : Frame) (a b : ℚ) : (State.mk f a b).range = (a, b) := rfl

theorem autoRange_fst (frame : Frame) : (autoRange frame).1 = (minMaxPass frame).1 :=
  (congrArg Prod.fst (autoRange_eq frame)).trans (pair_fst _ _)

theorem autoRange_snd (frame : Frame) :
    (autoRange frame).2
      = if (minMaxPass frame).2 - (minMaxPass frame).1 < 1 then (minMaxPass frame).1 + 1
        else (minMaxPass frame).2 :=
  (congrArg Prod.snd (autoRange_eq frame)).trans (pair_snd _ _)

theorem loop_ok_fst (tft : Tft) (s : State) (sensed : Frame) :
    (loop tft s 0 sensed).1
      = { frame := sensed, minTemp := (autoRange sensed).1, maxTemp := (autoRange sensed).2 } :=
  (congrArg Prod.fst (loop_ok tft s sensed)).trans (pair_fst _ _)

theorem loop_ok_snd (tft : Tft) (s : State) (sensed : Frame) :
    (loop tft s 0 sensed).2
      = [Op.spiBeginTransaction]
          ++ drawThermalImage tft sensed (autoRange sensed).1 (autoRange sensed).2
          ++ drawInterface tft sensed (autoRange sensed).1 (autoRange sensed).2
          ++ [Op.spiEndTransaction] :=
  (congrArg Prod.snd (loop_ok tft s sensed)).trans (pair_snd _ _)

theorem loop_ok_minTemp (tft : Tft) (s : State) (sensed : Frame) :
    (loop tft s 0 sensed).1.minTemp = (autoRange sensed).1 :=
  (congrArg State.minTemp (loop_ok_fst tft s sensed)).trans (State.minTemp_mk _ _ _)

theorem loop_ok_maxTemp (tft : Tft) (s : State) (sensed : Frame) :
    (loop tft s 0 sensed).1.maxTemp = (autoRange sensed).2 :=
  (congrArg State.maxTemp (loop_ok_fst tft s sensed)).trans (State.maxTemp_mk _ _ _)

theorem loop_ok_range (tft : Tft) (s : State) (sensed : Frame) :
    (loop tft s 0 sensed).1.range = autoRange sensed :=
  ((congrArg State.range (loop_ok_fst tft s sensed)).trans (State.range_mk _ _ _)).trans
    Prod.mk.eta

theorem foldl_finRange_fst_le {n : ℕ} (f : Fin n → ℚ) (a b : ℚ) (i : Fin n) :
    ((List.finRange n).foldl (fun acc i => minMaxStep acc (f i)) (a, b)).1 ≤ f i := by
  rw [foldl_finRange_minMax]
  exact foldl_min_le_of_mem _ _ _ ((List.mem_ofFn f _).mpr ⟨i, rfl⟩)

theorem foldl_finRange_fst_cases {n : ℕ} (f : Fin n → ℚ) (a b : ℚ) :
    ((List.finRange n).foldl (fun acc i => minMaxStep acc (f i)) (a, b)).1 = a
      ∨ ∃ i, f i = ((List.finRange n).foldl (fun acc i => minMaxStep acc (f i)) (a, b)).1 := by
  rw [foldl_finRange_minMax]
  rcases foldl_min_mem (List.ofFn f) a with h | h
  · exact Or.inl h
  · exact Or.inr ((List.mem_ofFn f _).mp h)

theorem foldl_finRange_le_snd {n : ℕ} (f : Fin n → ℚ) (a b : ℚ) (i : Fin n) :
    f i ≤ ((List.finRange n).foldl (fun acc i => minMaxStep acc (f i)) (a, b)).2 := by
  rw [foldl_finRange_minMax]
  exact le_foldl_max_of_mem _ _ _ ((List.mem_ofFn f _).mpr ⟨i, rfl⟩)

theorem foldl_finRange_snd_cases {n : ℕ} (f : Fin n → ℚ) (a b : ℚ) :
    ((List.finRange n).foldl (fun acc i => minMaxStep acc (f i)) (a, b)).2 = b
      ∨ ∃ i, f i = ((List.finRange n).foldl (fun acc i => minMaxStep acc (f i)) (a, b)).2 := by
  rw [foldl_finRange_minMax]
  rcases foldl_max_mem (List.ofFn f) b with h | h
  · exact Or.inl h
  · exact Or.inr ((List.mem_ofFn f _).mp h)

theorem minMaxPass_fst_le (frame : Frame) (i : Fin 768) : (minMaxPass frame).1 ≤ frame i :=
  foldl_finRange_fst_le frame 1000 (-1000) i

theorem minMaxPass_fst_cases (frame : Frame) :
    (minMaxPass frame).1 = 1000 ∨ ∃ i, frame i = (minMaxPass frame).1 :=
  foldl_finRange_fst_cases frame 1000 (-1000)

theorem minMaxPass_le_snd (frame : Frame) (i : Fin 768) : frame i ≤ (minMaxPass frame).2 :=
  foldl_finRange_le_snd frame 1000 (-1000) i

theorem minMaxPass_snd_cases (frame : Frame) :
    (minMaxPass frame).2 = -1000 ∨ ∃ i, frame i = (minMaxPass frame).2 :=
  foldl_finRange_snd_cases frame 1000 (-1000)

/-- The pass on a frame whose samples all equal `v`. -/
theorem minMaxPass_const (v : ℚ) :
    minMaxPass (fun _ => v) = (min 1000 v, max (-1000) v) := by
  have h0 : (0 : ℕ) < 768 := by decide
  apply Prod.ext
  · apply minMaxPass_fst_eq
    · exact min_le_left _ _
    · intro _; exact min_le_right _ _
    · rcases min_choice (1000 : ℚ) v with h | h
      · exact Or.inl h
      · exact Or.inr ⟨⟨0, h0⟩, h.symm⟩
  · apply minMaxPass_snd_eq
    · exact le_max_left _ _
    · intro _; exact le_max_right _ _
    · rcases max_choice (-1000 : ℚ) v with h | h
      · exact Or.inl h
      · exact Or.inr ⟨⟨0, h0⟩, h.symm⟩

theorem autoRange_const (v : ℚ) :
    autoRange (fun _ => v)
      = (min 1000 v, if max (-1000) v - min 1000 v < 1 then min 1000 v + 1 else max (-1000) v) := by
  rw [autoRange_eq, minMaxPass_const]

/-! ## Lemmas on the colour mapping -/

theorem toUint8_lt (x : ℚ) : toUint8 x < 256 := by
  unfold toUint8
  have h1 : truncToInt x % 256 < 256 := Int.emod_lt_of_pos _ (by norm_num)
  have h0 : 0 ≤ truncToInt x % 256 := Int.emod_nonneg _ (by norm_num)
  omega

theorem toUint8_cast (x : ℚ) (h0 : 0 ≤ x) (h1 : x ≤ 255) : (toUint8 x : ℤ) = ⌊x⌋ := by
  unfold toUint8 truncToInt
  rw [if_pos h0]
  have hf0 : 0 ≤ ⌊x⌋ := Int.floor_nonneg.mpr h0
  have hf1 : ⌊x⌋ ≤ 255 := by
    have h := Int.floor_mono h1
    have h255 : ⌊(255 : ℚ)⌋ = 255 := by norm_num
    rw [h255] at h
    exact h
  omega

theorem toUint8_mono (x y : ℚ) (h0 : 0 ≤ x) (hxy : x ≤ y) (h1 : y ≤ 255) :
    toUint8 x ≤ toUint8 y := by
  have hx := toUint8_cast x h0 (le_trans hxy h1)
  have hy := toUint8_cast y (le_trans h0 hxy) h1
  have h := Int.floor_mono hxy
  omega

theorem toUint8_zero : toUint8 0 = 0 := by decide

theorem toUint8_255 : toUint8 255 = 255 := by decide

/-- The normalised position of a value inside the window is the quotient the code computes. -/
theorem mapTempToColorRGB_inside (val minVal maxVal : ℚ) (h1 : minVal ≤ val)
    (h2 : val ≤ maxVal) :
    mapTempToColorRGB val minVal maxVal
      = if (val - minVal) / (maxVal - minVal) < 1 / 2 then
          (0, toUint8 (255 * ((val - minVal) / (maxVal - minVal) * 2)),
            toUint8 (255 * (1 - (val - minVal) / (maxVal - minVal) * 2)))
        else
          (toUint8 (255 * (((val - minVal) / (maxVal - minVal) - 1 / 2) * 2)),
            toUint8 (255 * (1 - ((val - minVal) / (maxVal - minVal) - 1 / 2) * 2)), 0) := by
  unfold mapTempToColorRGB
  simp only [if_neg (not_lt.mpr h1), gt_iff_lt, if_neg (not_lt.mpr h2)]

theorem mapTempToColorRGB_below (val minVal maxVal : ℚ) (hd : minVal < maxVal)
    (h : val < minVal) :
    mapTempToColorRGB val minVal maxVal = mapTempToColorRGB minVal minVal maxVal := by
  unfold mapTempToColorRGB
  simp only [if_pos h, if_neg (lt_irrefl minVal), gt_iff_lt, if_neg (not_lt.mpr hd.le)]

theorem mapTempToColorRGB_above (val minVal maxVal : ℚ) (hd : minVal < maxVal)
    (h : maxVal < val) :
    mapTempToColorRGB val minVal maxVal = mapTempToColorRGB maxVal minVal maxVal := by
  unfold mapTempToColorRGB
  simp only [if_neg (not_lt.mpr (le_of_lt (lt_trans hd h))), gt_iff_lt, if_pos h,
    if_neg (not_lt.mpr hd.le), if_neg (lt_irrefl maxVal)]

theorem mapTempToColorRGB_low (minVal maxVal : ℚ) (hd : minVal < maxVal) :
    mapTempToColorRGB minVal minVal maxVal = (0, 0, 255) := by
  rw [mapTempToColorRGB_inside minVal minVal maxVal (le_refl _) hd.le]
  norm_num [toUint8_zero, toUint8_255]

theorem mapTempToColorRGB_high (minVal maxVal : ℚ) (hd : minVal < maxVal) :
    mapTempToColorRGB maxVal minVal maxVal = (255, 0, 0) := by
  rw [mapTempToColorRGB_inside maxVal minVal maxVal hd.le (le_refl _)]
  have hne : maxVal - minVal ≠ 0 := (sub_pos.mpr hd).ne'
  rw [div_self hne]
  norm_num [toUint8_zero, toUint8_255]

theorem mapTempToColorRGB_mid (minVal maxVal : ℚ) (hd : minVal < maxVal) :
    mapTempToColorRGB ((minVal + maxVal) / 2) minVal maxVal = (0, 255, 0) := by
  rw [mapTempToColorRGB_inside _ minVal maxVal (by linarith) (by linarith)]
  have hne : maxVal - minVal ≠ 0 := (sub_pos.mpr hd).ne'
  have hrel : ((minVal + maxVal) / 2 - minVal) / (maxVal - minVal) = 1 / 2 := by
    field_simp
    ring
  rw [hrel]
  norm_num [toUint8_zero, toUint8_255]

/-! ## Lemmas on the raster and the overlay -/

theorem flatMap_finRange_eq_ofFn {α : Type} {m n : ℕ} (f : Fin (m * n) → α)
    (g : Fin m → Fin n → α)
    (hg : ∀ (i : Fin m) (j : Fin n) (hlt : i.val * n + j.val < m * n),
      g i j = f ⟨i.val * n + j.val, hlt⟩) :
    ((List.finRange m).flatMap fun i => (List.finRange n).map fun j => g i j) = List.ofFn f := by
  rw [List.ofFn_mul, List.flatMap_def, List.ofFn_eq_map]
  congr 1
  apply List.map_congr_left
  intro i _
  rw [List.ofFn_eq_map]
  apply List.map_congr_left
  intro j _
  exact hg i j _

theorem drawThermalImage_eq (tft : Tft) (frame : Frame) (minTemp maxTemp : ℚ) :
    drawThermalImage tft frame minTemp maxTemp = List.ofFn (cellRect tft frame minTemp maxTemp) := by
  unfold drawThermalImage
  refine @flatMap_finRange_eq_ofFn Op 24 32 (cellRect tft frame minTemp maxTemp) _ ?_
  intro i j hlt
  have hi := i.isLt
  have hj := j.isLt
  have e1 : (i.val * 32 + j.val) % 32 = j.val := by omega
  have e2 : (i.val * 32 + j.val) / 32 = i.val := by omega
  simp only [cellRect, e1, e2, PIXEL_SCALE]

theorem filter_ofFn_eq_self {n : ℕ} (f : Fin n → Op) (h : ∀ i, (f i).isFillRect = true) :
    (List.ofFn f).filter Op.isFillRect = List.ofFn f := by
  apply List.filter_eq_self.mpr
  intro a ha
  obtain ⟨i, hi⟩ := (List.mem_ofFn f a).mp ha
  rw [← hi]
  exact h i

theorem cellRect_isFillRect (tft : Tft) (frame : Frame) (minTemp maxTemp : ℚ) (k : Fin 768) :
    (cellRect tft frame minTemp maxTemp k).isFillRect = true := rfl

theorem drawInterface_filter (tft : Tft) (frame : Frame) (minTemp maxTemp : ℚ) :
    (drawInterface tft frame minTemp maxTemp).filter Op.isFillRect = [] := rfl

/-- The `fillRect` calls of a successful iteration are the 768 cell rectangles, in index order. -/
theorem loop_fillRects (tft : Tft) (s : State) (frame : Frame) :
    (loop tft s 0 frame).2.filter Op.isFillRect
      = List.ofFn (cellRect tft frame (autoRange frame).1 (autoRange frame).2) := by
  have e1 : List.filter Op.isFillRect [Op.spiBeginTransaction] = [] := rfl
  have e2 : List.filter Op.isFillRect [Op.spiEndTransaction] = [] := rfl
  rw [loop_ok_snd, drawThermalImage_eq, List.filter_append, List.filter_append, List.filter_append,
    drawInterface_filter,
    filter_ofFn_eq_self _ (cellRect_isFillRect tft frame (autoRange frame).1 (autoRange frame).2),
    e1, e2, List.nil_append, List.append_nil, List.append_nil]

theorem cellRect_covers (tft : Tft) (frame : Frame) (minTemp maxTemp : ℚ) (k : Fin 768)
    (px py : ℤ) :
    (cellRect tft frame minTemp maxTemp k).covers px py
      ↔ ((k.val % 32 : ℕ) : ℤ) * 10 ≤ px ∧ px < ((k.val % 32 : ℕ) : ℤ) * 10 + 10
        ∧ ((k.val / 32 : ℕ) : ℤ) * 10 ≤ py ∧ py < ((k.val / 32 : ℕ) : ℤ) * 10 + 10 :=
  Iff.rfl

theorem cellRect_disjoint (tft : Tft) (frame : Frame) (minTemp maxTemp : ℚ) (k1 k2 : Fin 768)
    (px py : ℤ) (h1 : (cellRect tft frame minTemp maxTemp k1).covers px py)
    (h2 : (cellRect tft frame minTemp maxTemp k2).covers px py) : k1 = k2 := by
  rw [cellRect_covers] at h1 h2
  apply Fin.ext
  omega

theorem cellRect_cover (tft : Tft) (frame : Frame) (minTemp maxTemp : ℚ) (px py : ℤ) :
    (∃ k, (cellRect tft frame minTemp maxTemp k).covers px py)
      ↔ (0 ≤ px ∧ px < 320 ∧ 0 ≤ py ∧ py < 240) := by
  constructor
  · rintro ⟨k, hk⟩
    rw [cellRect_covers] at hk
    have := k.isLt
    omega
  · rintro ⟨hx0, hx1, hy0, hy1⟩
    refine ⟨⟨(py / 10).toNat * 32 + (px / 10).toNat, by omega⟩, ?_⟩
    rw [cellRect_covers]
    dsimp only
    omega

theorem textRuns_append_fillRects (l r : List Op) (h : ∀ op ∈ l, op.isFillRect = true) :
    textRuns (l ++ r) = textRuns r := by
  induction l with
  | nil => rfl
  | cons a l ih =>
    have ha := h a (List.mem_cons_self a l)
    have hl : ∀ op ∈ l, op.isFillRect = true := fun op hop => h op (List.mem_cons_of_mem a hop)
    cases a with
    | fillRect x y w h c =>
      rw [List.cons_append]
      show textRuns (l ++ r) = textRuns r
      exact ih hl
    | serialPrintln _ => cases ha
    | spiBeginTransaction => cases ha
    | spiEndTransaction => cases ha
    | drawFastHLine _ _ _ _ => cases ha
    | drawFastVLine _ _ _ _ => cases ha
    | setTextSize _ => cases ha
    | setTextColor _ _ => cases ha
    | setCursor _ _ => cases ha
    | print _ => cases ha

theorem textRuns_cons_begin (r : List Op) :
    textRuns (Op.spiBeginTransaction :: r) = textRuns r := rfl

theorem textRuns_ofFn_append {n : ℕ} (f : Fin n → Op) (h : ∀ i, (f i).isFillRect = true)
    (r : List Op) : textRuns (List.ofFn f ++ r) = textRuns r := by
  apply textRuns_append_fillRects
  intro a ha
  obtain ⟨i, hi⟩ := (List.mem_ofFn f a).mp ha
  rw [← hi]
  exact h i

theorem textRuns_drawInterface (tft : Tft) (frame : Frame) (minTemp maxTemp : ℚ) :
    textRuns (drawInterface tft frame minTemp maxTemp ++ [Op.spiEndTransaction])
      = [ (Int.tdiv tft.width 2 + 5, Int.tdiv tft.height 2 + 5,
            printFloat (frame ⟨12 * 32 + 16, by decide⟩) 1 ++ "C"),
          (5, 220, "Min: " ++ printFloat minTemp 0),
          (240, 220, "Max: " ++ printFloat maxTemp 0) ] := by
  simp [drawInterface, textRuns, printedText]

/-- The text runs of a successful iteration: the centre readout, then the two range bounds. -/
theorem textRuns_loop (tft : Tft) (s : State) (frame : Frame) :
    textRuns (loop tft s 0 frame).2
      = [ (Int.tdiv tft.width 2 + 5, Int.tdiv tft.height 2 + 5,
            printFloat (frame ⟨12 * 32 + 16, by decide⟩) 1 ++ "C"),
          (5, 220, "Min: " ++ printFloat (autoRange frame).1 0),
          (240, 220, "Max: " ++ printFloat (autoRange frame).2 0) ] := by
  rw [loop_ok_snd, drawThermalImage_eq, List.append_assoc, List.append_assoc, List.singleton_append,
    textRuns_cons_begin,
    textRuns_ofFn_append _
      (cellRect_isFillRect tft frame (autoRange frame).1 (autoRange frame).2),
    textRuns_drawInterface]

theorem printFloat_20 : printFloat 20 0 = "20" := by
  have h : Int.toNat 20 = 20 := rfl
  norm_num [printFloat, fracDigits, h]
  decide

theorem printFloat_40 : printFloat 40 0 = "40" := by
  have h : Int.toNat 40 = 40 := rfl
  norm_num [printFloat, fracDigits, h]
  decide

theorem printFloat_25 : printFloat 25 0 = "25" := by
  have h : Int.toNat 25 = 25 := rfl
  norm_num [printFloat, fracDigits, h]
  decide

theorem printFloat_26 : printFloat 26 0 = "26" := by
  have h : Int.toNat 26 = 26 := rfl
  norm_num [printFloat, fracDigits, h]
  decide

theorem printFloat_25_1 : printFloat 25 1 = "25.0" := by
  have h : Int.toNat 25 = 25 := rfl
  norm_num [printFloat, fracDigits, h]
  decide

theorem autoRange_hotFrame (k : Fin 768) : autoRange (hotFrame k) = (20, 40) := by
  have h1 : (minMaxPass (hotFrame k)).1 = 20 := by
    apply minMaxPass_fst_eq
    · norm_num
    · intro i
      unfold hotFrame
      split <;> norm_num
    · right
      by_cases hk : k = ⟨0, by decide⟩
      · refine ⟨⟨1, by decide⟩, ?_⟩
        unfold hotFrame
        rw [if_neg]
        rw [hk]
        intro h
        exact absurd (congrArg Fin.val h) (by decide)
      · refine ⟨⟨0, by decide⟩, ?_⟩
        unfold hotFrame
        rw [if_neg (fun h => hk h.symm)]
  have h2 : (minMaxPass (hotFrame k)).2 = 40 := by
    apply minMaxPass_snd_eq
    · norm_num
    · intro i
      unfold hotFrame
      split <;> norm_num
    · right
      refine ⟨k, ?_⟩
      unfold hotFrame
      rw [if_pos rfl]
  rw [autoRange_eq, h1, h2]
  norm_num

theorem mapTempToColorRGB_hotFrame (k i : Fin 768) :
    mapTempToColorRGB (hotFrame k i) 20 40 = if i = k then (255, 0, 0) else (0, 0, 255) := by
  unfold hotFrame
  by_cases h : i = k
  · rw [if_pos h, if_pos h]
    exact mapTempToColorRGB_high 20 40 (by norm_num)
  · rw [if_neg h, if_neg h]
    exact mapTempToColorRGB_low 20 40 (by norm_num)

/-! ## Lemmas on the normalised position -/

theorem mapTempToColorRGB_eq_rel (val minVal maxVal : ℚ) :
    mapTempToColorRGB val minVal maxVal
      = if relOf val minVal maxVal < 1 / 2 then
          (0, toUint8 (255 * (relOf val minVal maxVal * 2)),
            toUint8 (255 * (1 - relOf val minVal maxVal * 2)))
        else
          (toUint8 (255 * ((relOf val minVal maxVal - 1 / 2) * 2)),
            toUint8 (255 * (1 - (relOf val minVal maxVal - 1 / 2) * 2)), 0) := rfl

theorem constrainVal_mem (val minVal maxVal : ℚ) (h : minVal < maxVal) :
    minVal ≤ constrainVal val minVal maxVal ∧ constrainVal val minVal maxVal ≤ maxVal := by
  unfold constrainVal
  dsimp only
  split_ifs with h1 h2 h3
  · exact absurd h2 (not_lt.mpr h.le)
  · exact ⟨le_refl _, h.le⟩
  · exact ⟨h.le, le_refl _⟩
  · exact ⟨not_lt.mp h1, not_lt.mp h3⟩

theorem relOf_mem (val minVal maxVal : ℚ) (h : minVal < maxVal) :
    0 ≤ relOf val minVal maxVal ∧ relOf val minVal maxVal ≤ 1 := by
  have hd : 0 < maxVal - minVal := sub_pos.mpr h
  obtain ⟨h1, h2⟩ := constrainVal_mem val minVal maxVal h
  unfold relOf
  constructor
  · exact div_nonneg (by linarith) hd.le
  · rw [div_le_one hd]
    linarith

theorem toUint8_exact (x : ℚ) (h0 : 0 ≤ x) (h1 : x ≤ 255) : (toUint8 x : ℤ) = truncToInt x := by
  rw [toUint8_cast x h0 h1]
  unfold truncToInt
  rw [if_pos h0]

/-! ## Lemmas on the pass seeded with the infinities -/

theorem infStep_some (a b t : ℚ) :
    infStep (some a, some b) t
      = (some (minMaxStep (a, b) t).1, some (minMaxStep (a, b) t).2) := by
  unfold infStep minMaxStep
  dsimp only
  split_ifs <;> rfl

theorem foldl_infStep_some (l : List ℚ) (a b : ℚ) :
    l.foldl infStep (some a, some b)
      = (some (l.foldl minMaxStep (a, b)).1, some (l.foldl minMaxStep (a, b)).2) := by
  induction l generalizing a b with
  | nil => rfl
  | cons t l ih =>
    rw [List.foldl_cons, List.foldl_cons, infStep_some, ih]

theorem minMaxStep_seed (t : ℚ) (h1 : -1000 ≤ t) (h2 : t ≤ 1000) :
    minMaxStep (1000, -1000) t = (t, t) := by
  rw [minMaxStep_eq]
  exact Prod.ext (min_eq_right h2) (max_eq_right h1)

/-- On a non-empty frame whose first sample lies in [-1000, 1000], the pass seeded with the
infinities leaves the values of the pass seeded with 1000 and -1000. -/
theorem foldl_finRange_infStep {n : ℕ} (hn : 0 < n) (f : Fin n → ℚ)
    (h1 : -1000 ≤ f ⟨0, hn⟩) (h2 : f ⟨0, hn⟩ ≤ 1000) :
    (List.finRange n).foldl (fun acc i => infStep acc (f i)) (none, none)
      = (some ((List.finRange n).foldl (fun acc i => minMaxStep acc (f i)) (1000, -1000)).1,
          some ((List.finRange n).foldl (fun acc i => minMaxStep acc (f i)) (1000, -1000)).2) := by
  have e1 : (List.finRange n).foldl (fun acc i => infStep acc (f i)) (none, none)
      = (List.ofFn f).foldl infStep (none, none) := by
    rw [List.ofFn_eq_map, List.foldl_map]
  have e2 : (List.finRange n).foldl (fun acc i => minMaxStep acc (f i)) (1000, -1000)
      = (List.ofFn f).foldl minMaxStep (1000, -1000) := by
    rw [List.ofFn_eq_map, List.foldl_map]
  rw [e1, e2]
  cases n with
  | zero => exact absurd hn (lt_irrefl 0)
  | succ m =>
    rw [List.ofFn_succ, List.foldl_cons, List.foldl_cons]
    have hz : f 0 = f ⟨0, hn⟩ := rfl
    rw [hz, minMaxStep_seed _ h1 h2]
    have hs : infStep (none, none) (f ⟨0, hn⟩) = (some (f ⟨0, hn⟩), some (f ⟨0, hn⟩)) := rfl
    rw [hs, foldl_infStep_some]

theorem infPass_eq (frame : Frame) (h1 : -1000 ≤ frame ⟨0, by decide⟩)
    (h2 : frame ⟨0, by decide⟩ ≤ 1000) :
    infPass frame = (some (minMaxPass frame).1, some (minMaxPass frame).2) :=
  foldl_finRange_infStep (by decide) frame h1 h2

/-! ## Lemmas on the transaction bracket -/

theorem bracket_index (writes : List Op) (i : ℕ) (op : Op)
    (h : (Op.spiBeginTransaction :: (writes ++ [Op.spiEndTransaction]))[i]? = some op)
    (hb : op ≠ Op.spiBeginTransaction) (he : op ≠ Op.spiEndTransaction) :
    0 < i ∧ i + 1 < (Op.spiBeginTransaction :: (writes ++ [Op.spiEndTransaction])).length := by
  cases i with
  | zero =>
    rw [List.getElem?_cons_zero] at h
    exact absurd (Option.some.inj h).symm hb
  | succ j =>
    rw [List.getElem?_cons_succ] at h
    have hlen : (Op.spiBeginTransaction :: (writes ++ [Op.spiEndTransaction])).length
        = writes.length + 2 := by
      rw [List.length_cons, List.length_append, List.length_singleton]
    rw [hlen]
    refine ⟨Nat.succ_pos j, ?_⟩
    by_cases hj : j < writes.length
    · omega
    · exfalso
      rw [List.getElem?_append_right (not_lt.mp hj)] at h
      cases hk : j - writes.length with
      | zero =>
        rw [hk, List.getElem?_cons_zero] at h
        exact he (Option.some.inj h).symm
      | succ k =>
        rw [hk, List.getElem?_cons_succ] at h
        cases h

theorem cellRect_ne_begin (tft : Tft) (frame : Frame) (minTemp maxTemp : ℚ) (k : Fin 768) :
    cellRect tft frame minTemp maxTemp k ≠ Op.spiBeginTransaction := by
  intro h
  cases h

theorem cellRect_ne_end (tft : Tft) (frame : Frame) (minTemp maxTemp : ℚ) (k : Fin 768) :
    cellRect tft frame minTemp maxTemp k ≠ Op.spiEndTransaction := by
  intro h
  cases h

theorem drawInterface_no_bracket (tft : Tft) (frame : Frame) (minTemp maxTemp : ℚ) :
    ∀ op ∈ drawInterface tft frame minTemp maxTemp,
      op ≠ Op.spiBeginTransaction ∧ op ≠ Op.spiEndTransaction := by
  intro op hop
  unfold drawInterface at hop
  simp only [List.mem_cons, List.mem_singleton, List.not_mem_nil, or_false] at hop
  rcases hop with h | h | h | h | h | h | h | h | h | h | h | h | h <;>
    (rw [h]; exact ⟨fun e => Op.noConfusion e, fun e => Op.noConfusion e⟩)

/-- The trace of a successful iteration, with the raster written as the 768 cell rectangles. -/
theorem loop_trace (tft : Tft) (s : State) (frame : Frame) :
    (loop tft s 0 frame).2
      = Op.spiBeginTransaction
          :: ((List.ofFn (cellRect tft frame (autoRange frame).1 (autoRange frame).2)
              ++ drawInterface tft frame (autoRange frame).1 (autoRange frame).2)
            ++ [Op.spiEndTransaction]) := by
  rw [loop_ok_snd, drawThermalImage_eq, List.append_assoc, List.append_assoc,
    List.singleton_append, List.append_assoc]

theorem writes_no_bracket (tft : Tft) (frame : Frame) (minTemp maxTemp : ℚ) :
    ∀ op ∈ List.ofFn (cellRect tft frame minTemp maxTemp)
        ++ drawInterface tft frame minTemp maxTemp,
      op ≠ Op.spiBeginTransaction ∧ op ≠ Op.spiEndTransaction := by
  intro op hop
  rcases List.mem_append.mp hop with h | h
  · obtain ⟨k, hk⟩ := (List.mem_ofFn _ op).mp h
    rw [← hk]
    exact ⟨cellRect_ne_begin tft frame minTemp maxTemp k,
      cellRect_ne_end tft frame minTemp maxTemp k⟩
  · exact drawInterface_no_bracket tft frame minTemp maxTemp op h

theorem count_bracket (writes : List Op)
    (h : ∀ op ∈ writes, op ≠ Op.spiBeginTransaction ∧ op ≠ Op.spiEndTransaction) :
    (Op.spiBeginTransaction :: (writes ++ [Op.spiEndTransaction])).count Op.spiBeginTransaction = 1
      ∧ (Op.spiBeginTransaction :: (writes ++ [Op.spiEndTransaction])).count
          Op.spiEndTransaction = 1 := by
  have hb : writes.count Op.spiBeginTransaction = 0 :=
    List.count_eq_zero_of_not_mem fun hm => (h _ hm).1 rfl
  have he : writes.count Op.spiEndTransaction = 0 :=
    List.count_eq_zero_of_not_mem fun hm => (h _ hm).2 rfl
  constructor
  · rw [List.count_cons_self, List.count_append, hb]
    rfl
  · rw [List.count_cons_of_ne (by decide), List.count_append, he]
    rfl

/-! ## Lemmas on step 2 in float arithmetic -/

theorem int_log_two_eq (x : ℚ) (e : ℤ) (hx : 0 < x) (h1 : (2 : ℚ) ^ e ≤ x)
    (h2 : x < (2 : ℚ) ^ (e + 1)) : Int.log 2 x = e := by
  have hb : 1 < 2 := by decide
  have hc : ((2 : ℕ) : ℚ) = 2 := by norm_num
  apply le_antisymm
  · have h := (Int.lt_zpow_iff_log_lt hb hx).mp (by rw [hc]; exact h2)
    omega
  · exact (Int.zpow_le_iff_le_log hb hx).mp (by rw [hc]; exact h1)

/-- Evaluation of `roundBinary` at a value whose binade is known. -/
theorem roundBinary_eval (p : ℕ) (emin : ℤ) (x : ℚ) (e : ℤ) (hx : x ≠ 0)
    (h1 : (2 : ℚ) ^ e ≤ |x|) (h2 : |x| < (2 : ℚ) ^ (e + 1)) (he : emin ≤ e) :
    roundBinary p emin x
      = roundNearestEven (x / 2 ^ (e - (p - 1))) * 2 ^ (e - (p - 1)) := by
  unfold roundBinary
  rw [if_neg hx, int_log_two_eq |x| e (abs_pos.mpr hx) h1 h2, max_eq_left he]

theorem toFloat_zero : toFloat 0 = 0 := by
  unfold toFloat roundBinary
  rw [if_pos rfl]

theorem autoRangeFloat_eq (frame : Frame) :
    autoRangeFloat frame
      = ((minMaxPass frame).1,
          if toFloat ((minMaxPass frame).2 - (minMaxPass frame).1) < 1 then
            toFloat (toDouble ((minMaxPass frame).1 + 1))
          else (minMaxPass frame).2) := rfl

theorem autoRangeFloat_fst (frame : Frame) : (autoRangeFloat frame).1 = (minMaxPass frame).1 :=
  (congrArg Prod.fst (autoRangeFloat_eq frame)).trans (pair_fst _ _)

theorem autoRangeFloat_snd (frame : Frame) :
    (autoRangeFloat frame).2
      = if toFloat ((minMaxPass frame).2 - (minMaxPass frame).1) < 1 then
          toFloat (toDouble ((minMaxPass frame).1 + 1))
        else (minMaxPass frame).2 :=
  (congrArg Prod.snd (autoRangeFloat_eq frame)).trans (pair_snd _ _)

/-- Where the two rounded operations are exact, step 2 in float arithmetic is `autoRange`. -/
theorem autoRangeFloat_eq_autoRange (frame : Frame)
    (hsub : toFloat ((minMaxPass frame).2 - (minMaxPass frame).1)
      = (minMaxPass frame).2 - (minMaxPass frame).1)
    (hadd : toFloat (toDouble ((minMaxPass frame).1 + 1)) = (minMaxPass frame).1 + 1) :
    autoRangeFloat frame = autoRange frame := by
  rw [autoRangeFloat_eq, autoRange_eq, hsub, hadd]

/-- On a frame whose samples all equal `v`, with `v` in [-1000, 1000], step 2 in float
arithmetic leaves `v` and the stored sum `v + 1.0`. -/
theorem autoRangeFloat_const (v : ℚ) (h1 : -1000 ≤ v) (h2 : v ≤ 1000) :
    autoRangeFloat (fun _ => v) = (v, toFloat (toDouble (v + 1))) := by
  rw [autoRangeFloat_eq, minMaxPass_const, pair_fst, pair_snd, min_eq_right h2, max_eq_right h1,
    sub_self, toFloat_zero, if_pos (by norm_num)]

/-- The `double` sum `0.1f + 1.0` is exact. -/
theorem toDouble_tenth_plus_one :
    toDouble (13421773 / 134217728 + 1) = 147639501 / 134217728 := by
  unfold toDouble
  rw [roundBinary_eval 53 (-1022) _ 0 (by norm_num) (by norm_num [abs_of_pos])
    (by norm_num [abs_of_pos]) (by norm_num)]
  norm_num [roundNearestEven]

/-- Stored in a `float`, the sum `0.1f + 1.0` is rounded up. -/
theorem toFloat_tenth_plus_one : toFloat (147639501 / 134217728) = 9227469 / 8388608 := by
  unfold toFloat
  rw [roundBinary_eval 24 (-126) _ 0 (by norm_num) (by norm_num [abs_of_pos])
    (by norm_num [abs_of_pos]) (by norm_num)]
  norm_num [roundNearestEven]

theorem toDouble_26 : toDouble (25 + 1) = 26 := by
  unfold toDouble
  rw [roundBinary_eval 53 (-1022) _ 4 (by norm_num) (by norm_num [abs_of_pos])
    (by norm_num [abs_of_pos]) (by norm_num)]
  norm_num [roundNearestEven]

theorem toFloat_26 : toFloat 26 = 26 := by
  unfold toFloat
  rw [roundBinary_eval 24 (-126) _ 4 (by norm_num) (by norm_num [abs_of_pos])
    (by norm_num [abs_of_pos]) (by norm_num)]
  norm_num [roundNearestEven]

/-- When some sample is at most 1000 and some sample is at least -1000, the range computed by
`autoRangeFloat` is the smallest sample and the largest sample, or the stored sum. -/
theorem autoRangeFloat_isFrameRange (frame : Frame)
    (hlow : ∃ i, frame i ≤ 1000) (hhigh : ∃ i, -1000 ≤ frame i) :
    IsFrameRangeFloat frame (autoRangeFloat frame) := by
  have hmin : IsLeast (Set.range frame) (minMaxPass frame).1 := by
    refine ⟨?_, ?_⟩
    · rcases minMaxPass_fst_cases frame with h | ⟨i, h⟩
      · obtain ⟨i, hi⟩ := hlow
        refine ⟨i, le_antisymm ?_ (minMaxPass_fst_le frame i)⟩
        rw [h]; exact hi
      · exact ⟨i, h⟩
    · rintro x ⟨i, rfl⟩
      exact minMaxPass_fst_le frame i
  have hmax : IsGreatest (Set.range frame) (minMaxPass frame).2 := by
    refine ⟨?_, ?_⟩
    · rcases minMaxPass_snd_cases frame with h | ⟨i, h⟩
      · obtain ⟨i, hi⟩ := hhigh
        refine ⟨i, le_antisymm (minMaxPass_le_snd frame i) ?_⟩
        rw [h]; exact hi
      · exact ⟨i, h⟩
    · rintro x ⟨i, rfl⟩
      exact minMaxPass_le_snd frame i
  unfold IsFrameRangeFloat
  rw [autoRangeFloat_fst, autoRangeFloat_snd]
  refine ⟨hmin, (minMaxPass frame).2, hmax, ?_⟩
  by_cases h : toFloat ((minMaxPass frame).2 - (minMaxPass frame).1) < 1
  · rw [if_pos h, if_neg (not_le.mpr h)]
  · rw [if_neg h, if_pos (not_lt.mp h)]

theorem postPassInfFloat_some (a b : ℚ) :
    postPassInfFloat (some a, some b)
      = some (a, if toFloat (b - a) < 1 then toFloat (toDouble (a + 1)) else b) := rfl

theorem autoRangeInfFloat_def (frame : Frame) :
    autoRangeInfFloat frame = postPassInfFloat (infPass frame) := rfl

/-- When the first sample lies in [-1000, 1000], the estimator seeded with the infinities gives
the range of step 2 of `loop`. -/
theorem autoRangeInfFloat_eq (frame : Frame) (h1 : -1000 ≤ frame ⟨0, by decide⟩)
    (h2 : frame ⟨0, by decide⟩ ≤ 1000) :
    autoRangeInfFloat frame = some (autoRangeFloat frame) :=
  ((autoRangeInfFloat_def frame).trans (congrArg postPassInfFloat (infPass_eq frame h1 h2))).trans
    ((postPassInfFloat_some _ _).trans (congrArg some (autoRangeFloat_eq frame).symm))

/-- Step 2 of `loop` on the frame whose samples all equal 0.1f. -/
theorem autoRangeFloat_tenth :
    autoRangeFloat (fun _ => 13421773 / 134217728)
      = (13421773 / 134217728, 9227469 / 8388608) := by
  rw [autoRangeFloat_const _ (by norm_num) (by norm_num), toDouble_tenth_plus_one,
    toFloat_tenth_plus_one]

/-! ## Claims -/

/-- C1: after a successful iteration of `loop` the globals satisfy `maxTemp - minTemp ≥ 1`, hence
`minTemp < maxTemp`, and the divisor `maxVal - minVal` of every `mapTempToColor` call of the
iteration, which is made with these globals, is not zero. -/
theorem loop_range_span (tft : Tft) (s : State) (frame : Frame) :
    (loop tft s 0 frame).1.maxTemp - (loop tft s 0 frame).1.minTemp ≥ 1
      ∧ (loop tft s 0 frame).1.minTemp < (loop tft s 0 frame).1.maxTemp
      ∧ (loop tft s 0 frame).1.maxTemp - (loop tft s 0 frame).1.minTemp ≠ 0
      ∧ (loop tft s 0 frame).2
          = [Op.spiBeginTransaction]
            ++ drawThermalImage tft frame (loop tft s 0 frame).1.minTemp
                (loop tft s 0 frame).1.maxTemp
            ++ drawInterface tft frame (loop tft s 0 frame).1.minTemp
                (loop tft s 0 frame).1.maxTemp
            ++ [Op.spiEndTransaction] := by
  have key : (autoRange frame).2 - (autoRange frame).1 ≥ 1 := by
    rw [autoRange_fst, autoRange_snd]
    by_cases h : (minMaxPass frame).2 - (minMaxPass frame).1 < 1
    · rw [if_pos h]; linarith
    · rw [if_neg h]; exact not_lt.mp h
  rw [loop_ok_snd, loop_ok_minTemp, loop_ok_maxTemp]
  refine ⟨key, by linarith, ?_, rfl⟩
  intro h
  rw [h] at key
  exact absurd key (by norm_num)

/-- C2 as stated fails: on the frame whose 768 samples all equal 2000 the seed 1000 survives the
pass, the range is (1000, 2000), and its low end is not a sample of the frame. -/
theorem loop_range_minmax_counterexample :
    (loop Tft.ili9341 State.init 0 (fun _ => 2000)).1.range = (1000, 2000)
      ∧ ¬ IsFrameRange (fun _ => 2000) (loop Tft.ili9341 State.init 0 (fun _ => 2000)).1.range := by
  have h : (loop Tft.ili9341 State.init 0 (fun _ => 2000)).1.range = (1000, 2000) := by
    rw [loop_ok_range, autoRange_const]
    norm_num
  refine ⟨h, ?_⟩
  rw [h]
  rintro ⟨⟨⟨i, hi⟩, _⟩, _⟩
  norm_num at hi

/-- C2, amended: when some sample is at most 1000 and some sample is at least -1000, step 2 of
`loop`, computed in the float arithmetic of the code, leaves as low end the smallest sample, and
as high end the largest sample if the `float` difference of the two is at least 1, and otherwise
the `float` stored by `maxTemp = minTemp + 1.0`. -/
theorem autoRangeFloat_minmax (frame : Frame)
    (hlow : ∃ i, frame i ≤ 1000) (hhigh : ∃ i, -1000 ≤ frame i) :
    IsFrameRangeFloat frame (autoRangeFloat frame) :=
  autoRangeFloat_isFrameRange frame hlow hhigh

/-- Witness of C2, amended: the frame whose samples all equal 0.1f. -/
theorem autoRangeFloat_minmax_witness :
    (∃ i : Fin 768, (fun _ => (13421773 / 134217728 : ℚ)) i ≤ 1000)
      ∧ (∃ i : Fin 768, -1000 ≤ (fun _ => (13421773 / 134217728 : ℚ)) i)
      ∧ IsFrameRangeFloat (fun _ => 13421773 / 134217728)
          (autoRangeFloat (fun _ => 13421773 / 134217728)) :=
  ⟨⟨0, by norm_num⟩, ⟨0, by norm_num⟩,
    autoRangeFloat_minmax (fun _ => 13421773 / 134217728) ⟨0, by norm_num⟩ ⟨0, by norm_num⟩⟩

/-- C3 as stated fails: when all 768 samples equal 1500 the range is (1000, 1500), not
(1500, 1501). -/
theorem loop_range_uniform_counterexample :
    (loop Tft.ili9341 State.init 0 (fun _ => 1500)).1.range = (1000, 1500)
      ∧ (loop Tft.ili9341 State.init 0 (fun _ => 1500)).1.range ≠ (1500, 1500 + 1) := by
  have h : (loop Tft.ili9341 State.init 0 (fun _ => 1500)).1.range = (1000, 1500) := by
    rw [loop_ok_range, autoRange_const]
    norm_num
  refine ⟨h, ?_⟩
  rw [h]
  norm_num

/-- C3, amended: when all 768 samples equal `v` and `-1000 ≤ v ≤ 1000`, step 2 of `loop`,
computed in the float arithmetic of the code, leaves the range `(v, h)`, where `h` is the `float`
stored by `maxTemp = minTemp + 1.0`: the sum `v + 1` rounded to `double` and then to `float`. -/
theorem autoRangeFloat_uniform (v : ℚ) (h1 : -1000 ≤ v) (h2 : v ≤ 1000) :
    autoRangeFloat (fun _ => v) = (v, toFloat (toDouble (v + 1))) :=
  autoRangeFloat_const v h1 h2

/-- Witness of C3, amended: the value 25, where the stored sum is exact and the range is
(25, 26). -/
theorem autoRangeFloat_uniform_witness :
    (-1000 : ℚ) ≤ 25 ∧ (25 : ℚ) ≤ 1000 ∧ autoRangeFloat (fun _ => 25) = (25, 26) :=
  ⟨by norm_num, by norm_num,
    (autoRangeFloat_uniform 25 (by norm_num) (by norm_num)).trans
      (by rw [toDouble_26, toFloat_26])⟩

/-- C4: for a window with `minVal < maxVal`, the channels `mapTempToColor` computes before
packing are (0, 0, 255) at `val = minVal`, (255, 0, 0) at `val = maxVal` and (0, 255, 0) at the
midpoint, so the packed colours are `color565` of these triples. -/
theorem mapTempToColor_stops (tft : Tft) (minVal maxVal : ℚ) (h : minVal < maxVal) :
    mapTempToColorRGB minVal minVal maxVal = (0, 0, 255)
      ∧ mapTempToColorRGB maxVal minVal maxVal = (255, 0, 0)
      ∧ mapTempToColorRGB ((minVal + maxVal) / 2) minVal maxVal = (0, 255, 0)
      ∧ mapTempToColor tft minVal minVal maxVal = tft.color565 0 0 255
      ∧ mapTempToColor tft maxVal minVal maxVal = tft.color565 255 0 0
      ∧ mapTempToColor tft ((minVal + maxVal) / 2) minVal maxVal = tft.color565 0 255 0 := by
  refine ⟨mapTempToColorRGB_low minVal maxVal h, mapTempToColorRGB_high minVal maxVal h,
    mapTempToColorRGB_mid minVal maxVal h, ?_, ?_, ?_⟩
  · unfold mapTempToColor
    rw [mapTempToColorRGB_low minVal maxVal h]
  · unfold mapTempToColor
    rw [mapTempToColorRGB_high minVal maxVal h]
  · unfold mapTempToColor
    rw [mapTempToColorRGB_mid minVal maxVal h]

/-- Witness of C4: the window (20, 40). -/
theorem mapTempToColor_stops_witness :
    (20 : ℚ) < 40
      ∧ mapTempToColorRGB 20 20 40 = (0, 0, 255)
      ∧ mapTempToColorRGB 40 20 40 = (255, 0, 0)
      ∧ mapTempToColorRGB ((20 + 40) / 2) 20 40 = (0, 255, 0) :=
  have h := mapTempToColor_stops Tft.ili9341 20 40 (by norm_num)
  ⟨by norm_num, h.1, h.2.1, h.2.2.1⟩

/-- C5: for a window with `minVal < maxVal` and `minVal ≤ v1 ≤ v2 ≤ maxVal`, the red channel at
`v1` is at most the red channel at `v2`, the blue channel at `v2` is at most the blue channel at
`v1`, green is non-decreasing while `v2` is at most the midpoint and non-increasing once `v1` is
at least the midpoint, green is 255 at the midpoint and no value gives a larger green. -/
theorem mapTempToColor_monotone (minVal maxVal v1 v2 : ℚ) (h : minVal < maxVal)
    (h1 : minVal ≤ v1) (h12 : v1 ≤ v2) (h2 : v2 ≤ maxVal) :
    (mapTempToColorRGB v1 minVal maxVal).1 ≤ (mapTempToColorRGB v2 minVal maxVal).1
      ∧ (mapTempToColorRGB v2 minVal maxVal).2.2 ≤ (mapTempToColorRGB v1 minVal maxVal).2.2
      ∧ (v2 ≤ (minVal + maxVal) / 2 →
          (mapTempToColorRGB v1 minVal maxVal).2.1 ≤ (mapTempToColorRGB v2 minVal maxVal).2.1)
      ∧ ((minVal + maxVal) / 2 ≤ v1 →
          (mapTempToColorRGB v2 minVal maxVal).2.1 ≤ (mapTempToColorRGB v1 minVal maxVal).2.1)
      ∧ (mapTempToColorRGB ((minVal + maxVal) / 2) minVal maxVal).2.1 = 255
      ∧ ∀ v, (mapTempToColorRGB v minVal maxVal).2.1 ≤ 255 := by
  have hd : 0 < maxVal - minVal := sub_pos.mpr h
  have hr1 : (v1 - minVal) / (maxVal - minVal) * (maxVal - minVal) = v1 - minVal :=
    div_mul_cancel₀ _ hd.ne'
  have hr2 : (v2 - minVal) / (maxVal - minVal) * (maxVal - minVal) = v2 - minVal :=
    div_mul_cancel₀ _ hd.ne'
  rw [mapTempToColorRGB_inside v1 minVal maxVal h1 (le_trans h12 h2),
    mapTempToColorRGB_inside v2 minVal maxVal (le_trans h1 h12) h2]
  generalize (v1 - minVal) / (maxVal - minVal) = r1 at hr1 ⊢
  generalize (v2 - minVal) / (maxVal - minVal) = r2 at hr2 ⊢
  have h0r1 : 0 ≤ r1 := by
    by_contra hc
    have := mul_neg_of_neg_of_pos (not_le.mp hc) hd
    linarith
  have hr12 : r1 ≤ r2 := by
    by_contra hc
    have := mul_lt_mul_of_pos_right (not_le.mp hc) hd
    linarith
  have hr21 : r2 ≤ 1 := by
    by_contra hc
    have := mul_lt_mul_of_pos_right (not_le.mp hc) hd
    linarith
  refine ⟨?_, ?_, ?_, ?_, ?_, ?_⟩
  · by_cases c1 : r1 < 1 / 2
    · rw [if_pos c1]; exact Nat.zero_le _
    · have c2 : ¬ r2 < 1 / 2 := fun hc => c1 (lt_of_le_of_lt hr12 hc)
      rw [if_neg c1, if_neg c2]
      exact toUint8_mono _ _ (by linarith [not_lt.mp c1]) (by linarith) (by linarith)
  · by_cases c2 : r2 < 1 / 2
    · have c1 : r1 < 1 / 2 := lt_of_le_of_lt hr12 c2
      rw [if_pos c1, if_pos c2]
      exact toUint8_mono _ _ (by linarith) (by linarith) (by linarith)
    · rw [if_neg c2]; exact Nat.zero_le _
  · intro hmid
    have hle : r2 ≤ 1 / 2 := by
      by_contra hc
      have := mul_lt_mul_of_pos_right (not_le.mp hc) hd
      linarith
    by_cases c2 : r2 < 1 / 2
    · have c1 : r1 < 1 / 2 := lt_of_le_of_lt hr12 c2
      rw [if_pos c1, if_pos c2]
      exact toUint8_mono _ _ (by linarith) (by linarith) (by linarith)
    · have e2 : r2 = 1 / 2 := le_antisymm hle (not_lt.mp c2)
      rw [if_neg c2, e2]
      have e255 : toUint8 (255 * (1 - ((1 : ℚ) / 2 - 1 / 2) * 2)) = 255 := by
        norm_num [toUint8_255]
      rw [e255]
      split
      · exact Nat.lt_succ_iff.mp (toUint8_lt _)
      · exact Nat.lt_succ_iff.mp (toUint8_lt _)
  · intro hmid
    have c1 : ¬ r1 < 1 / 2 := by
      intro hc
      have := mul_lt_mul_of_pos_right hc hd
      linarith
    have c2 : ¬ r2 < 1 / 2 := fun hc => c1 (lt_of_le_of_lt hr12 hc)
    rw [if_neg c1, if_neg c2]
    exact toUint8_mono _ _ (by linarith) (by linarith) (by linarith [not_lt.mp c1])
  · rw [mapTempToColorRGB_mid minVal maxVal h]
  · intro v
    unfold mapTempToColorRGB
    dsimp only
    split_ifs <;> exact Nat.lt_succ_iff.mp (toUint8_lt _)

/-- Witness of C5: the window (20, 40) with the values 25 and 35. -/
theorem mapTempToColor_monotone_witness :
    (20 : ℚ) < 40 ∧ (20 : ℚ) ≤ 25 ∧ (25 : ℚ) ≤ 35 ∧ (35 : ℚ) ≤ 40
      ∧ (mapTempToColorRGB 25 20 40).1 ≤ (mapTempToColorRGB 35 20 40).1
      ∧ (mapTempToColorRGB 35 20 40).2.2 ≤ (mapTempToColorRGB 25 20 40).2.2 :=
  have h := mapTempToColor_monotone 20 40 25 35 (by norm_num) (by norm_num) (by norm_num)
    (by norm_num)
  ⟨by norm_num, by norm_num, by norm_num, by norm_num, h.1, h.2.1⟩

/-- C6: for a window with `minVal < maxVal`, `mapTempToColor` returns for every `val < minVal`,
in particular for `minVal - 100`, the colour of `minVal`, and for every `val > maxVal` the colour
of `maxVal`. -/
theorem mapTempToColor_saturates (tft : Tft) (minVal maxVal : ℚ) (h : minVal < maxVal) :
    (∀ val, val < minVal →
        mapTempToColor tft val minVal maxVal = mapTempToColor tft minVal minVal maxVal)
      ∧ mapTempToColor tft (minVal - 100) minVal maxVal = mapTempToColor tft minVal minVal maxVal
      ∧ ∀ val, maxVal < val →
        mapTempToColor tft val minVal maxVal = mapTempToColor tft maxVal minVal maxVal := by
  have hlow : ∀ val, val < minVal →
      mapTempToColor tft val minVal maxVal = mapTempToColor tft minVal minVal maxVal := by
    intro val hv
    unfold mapTempToColor
    rw [mapTempToColorRGB_below val minVal maxVal h hv]
  refine ⟨hlow, hlow (minVal - 100) (by linarith), ?_⟩
  intro val hv
  unfold mapTempToColor
  rw [mapTempToColorRGB_above val minVal maxVal h hv]

/-- Witness of C6: the window (20, 40) and the values -80 and 55. -/
theorem mapTempToColor_saturates_witness :
    (20 : ℚ) < 40
      ∧ mapTempToColor Tft.ili9341 (20 - 100) 20 40 = mapTempToColor Tft.ili9341 20 20 40
      ∧ mapTempToColor Tft.ili9341 55 20 40 = mapTempToColor Tft.ili9341 40 20 40 :=
  have h := mapTempToColor_saturates Tft.ili9341 20 40 (by norm_num)
  ⟨by norm_num, h.2.1, h.2.2 55 (by norm_num)⟩

/-- C7: a successful iteration of `loop` issues exactly 24 * 32 = 768 `fillRect` calls, the call
number `k` (row `k / 32`, column `k % 32`, so row-major order) being the rectangle
`(col * 10, row * 10, 10, 10)`; no pixel lies in two of the rectangles, and the pixels lying in
some rectangle are exactly those with `0 ≤ x < 320` and `0 ≤ y < 240`. -/
theorem loop_raster (tft : Tft) (s : State) (frame : Frame) :
    (loop tft s 0 frame).2.filter Op.isFillRect
        = List.ofFn (cellRect tft frame (loop tft s 0 frame).1.minTemp
            (loop tft s 0 frame).1.maxTemp)
      ∧ ((loop tft s 0 frame).2.filter Op.isFillRect).length = 24 * 32
      ∧ (∀ (k1 k2 : Fin 768) (px py : ℤ),
          (cellRect tft frame (loop tft s 0 frame).1.minTemp
              (loop tft s 0 frame).1.maxTemp k1).covers px py →
          (cellRect tft frame (loop tft s 0 frame).1.minTemp
              (loop tft s 0 frame).1.maxTemp k2).covers px py → k1 = k2)
      ∧ ∀ px py : ℤ,
          (∃ k, (cellRect tft frame (loop tft s 0 frame).1.minTemp
              (loop tft s 0 frame).1.maxTemp k).covers px py)
            ↔ (0 ≤ px ∧ px < 320 ∧ 0 ≤ py ∧ py < 240) := by
  have hf := loop_fillRects tft s frame
  refine ⟨?_, ?_, ?_, ?_⟩
  · rw [hf, loop_ok_minTemp, loop_ok_maxTemp]
  · rw [hf, List.length_ofFn]
  · intro k1 k2 px py h1 h2
    exact cellRect_disjoint tft frame _ _ k1 k2 px py h1 h2
  · intro px py
    exact cellRect_cover tft frame _ _ px py

/-- C8: when `mlx.getFrame` returns a non-zero status, the iteration of `loop` issues the serial
log line and nothing else: no call on the display or the SPI bus, so no `fillRect`, no text, no
crosshair line and no transaction; `minTemp` and `maxTemp` keep their values. -/
theorem loop_failure (tft : Tft) (s : State) (status : ℤ) (sensed : Frame) (h : status ≠ 0) :
    (loop tft s status sensed).2 = [Op.serialPrintln "Failed to read from sensor"]
      ∧ (∀ op ∈ (loop tft s status sensed).2, op.isDisplayOp = false)
      ∧ (loop tft s status sensed).1.minTemp = s.minTemp
      ∧ (loop tft s status sensed).1.maxTemp = s.maxTemp := by
  unfold loop
  rw [if_pos h]
  refine ⟨rfl, ?_, rfl, rfl⟩
  intro op hop
  rw [List.mem_singleton.mp hop]
  rfl

/-- Witness of C8: the status -1 at program start. -/
theorem loop_failure_witness :
    (-1 : ℤ) ≠ 0
      ∧ (loop Tft.ili9341 State.init (-1) (fun _ => 0)).2
          = [Op.serialPrintln "Failed to read from sensor"] :=
  ⟨by decide, (loop_failure Tft.ili9341 State.init (-1) (fun _ => 0) (by decide)).1⟩

/-- C9: on the frame holding 40 at index `k` and 20 elsewhere, a successful iteration of `loop`
leaves the range (20, 40); its `fillRect` calls are the 768 cell rectangles, the one of cell `k`
in the colour of the channels (255, 0, 0) and every other one in the colour of (0, 0, 255); and
the overlay text at (5, 220) reads "Min: 20" and the one at (240, 220) reads "Max: 40". -/
theorem loop_hot_cell (tft : Tft) (s : State) (k : Fin 768) :
    (loop tft s 0 (hotFrame k)).1.range = (20, 40)
      ∧ (∀ i, mapTempToColorRGB (hotFrame k i) 20 40
          = if i = k then (255, 0, 0) else (0, 0, 255))
      ∧ (loop tft s 0 (hotFrame k)).2.filter Op.isFillRect
          = List.ofFn (fun i : Fin 768 =>
              Op.fillRect (((i.val % 32 : ℕ) : ℤ) * 10) (((i.val / 32 : ℕ) : ℤ) * 10) 10 10
                (if i = k then tft.color565 255 0 0 else tft.color565 0 0 255))
      ∧ (5, 220, "Min: 20") ∈ textRuns (loop tft s 0 (hotFrame k)).2
      ∧ (240, 220, "Max: 40") ∈ textRuns (loop tft s 0 (hotFrame k)).2 := by
  have hr := autoRange_hotFrame k
  have h1 : (autoRange (hotFrame k)).1 = 20 := by rw [hr]
  have h2 : (autoRange (hotFrame k)).2 = 40 := by rw [hr]
  have ht := textRuns_loop tft s (hotFrame k)
  rw [h1, h2, printFloat_20, printFloat_40] at ht
  have hmin : "Min: " ++ "20" = "Min: 20" := by decide
  have hmax : "Max: " ++ "40" = "Max: 40" := by decide
  rw [hmin, hmax] at ht
  refine ⟨?_, mapTempToColorRGB_hotFrame k, ?_, ?_, ?_⟩
  · rw [loop_ok_range, hr]
  · rw [loop_fillRects, h1, h2]
    refine congrArg List.ofFn (funext fun i => ?_)
    unfold cellRect mapTempToColor
    rw [mapTempToColorRGB_hotFrame]
    by_cases hik : i = k
    · rw [if_pos hik, if_pos hik]
    · rw [if_neg hik, if_neg hik]
  · rw [ht]
    exact List.mem_cons_of_mem _ (List.mem_cons_self _ _)
  · rw [ht]
    exact List.mem_cons_of_mem _ (List.mem_cons_of_mem _ (List.mem_cons_self _ _))

/-- C10: on the frame whose 768 samples all equal 25, a successful iteration of `loop` leaves the
range (25, 26); its `fillRect` calls are the 768 cell rectangles, all in the colour of the
channels (0, 0, 255); and the overlay's first text run, which for every frame is the sample at
index 12 * 32 + 16 = 400 printed with one decimal place and followed by "C", reads "25.0C". -/
theorem loop_uniform_25 (tft : Tft) (s : State) :
    (loop tft s 0 (fun _ => 25)).1.range = (25, 26)
      ∧ mapTempToColorRGB 25 25 26 = (0, 0, 255)
      ∧ (loop tft s 0 (fun _ => 25)).2.filter Op.isFillRect
          = List.ofFn (fun i : Fin 768 =>
              Op.fillRect (((i.val % 32 : ℕ) : ℤ) * 10) (((i.val / 32 : ℕ) : ℤ) * 10) 10 10
                (tft.color565 0 0 255))
      ∧ (∀ frame : Frame, (textRuns (loop tft s 0 frame).2).head?
          = some (Int.tdiv tft.width 2 + 5, Int.tdiv tft.height 2 + 5,
              printFloat (frame ⟨400, by decide⟩) 1 ++ "C"))
      ∧ textRuns (loop tft s 0 (fun _ => 25)).2
          = [ (Int.tdiv tft.width 2 + 5, Int.tdiv tft.height 2 + 5, "25.0C"),
              (5, 220, "Min: 25"), (240, 220, "Max: 26") ] := by
  have hr : autoRange (fun _ => 25) = (25, 26) := by
    rw [autoRange_const]
    norm_num
  have h1 : (autoRange (fun _ => 25)).1 = 25 := by rw [hr]
  have h2 : (autoRange (fun _ => 25)).2 = 26 := by rw [hr]
  have hblue := mapTempToColorRGB_low 25 26 (by norm_num)
  refine ⟨?_, hblue, ?_, ?_, ?_⟩
  · rw [loop_ok_range, hr]
  · rw [loop_fillRects, h1, h2]
    refine congrArg List.ofFn (funext fun i => ?_)
    unfold cellRect mapTempToColor
    rw [hblue]
  · intro frame
    rw [textRuns_loop]
    rfl
  · rw [textRuns_loop, h1, h2, printFloat_25, printFloat_26, printFloat_25_1]
    have hc : "25.0" ++ "C" = "25.0C" := by decide
    have hmin : "Min: " ++ "25" = "Min: 25" := by decide
    have hmax : "Max: " ++ "26" = "Max: 26" := by decide
    rw [hc, hmin, hmax]

/-- C12: for every `val` and every window with `minVal < maxVal`, the normalised position `rel`
that `mapTempToColor` computes from the clamped value lies in [0, 1]; in the branch taken each
channel expression `255 * localRel` and `255 * (1 - localRel)` lies in [0, 255], and its
conversion to `uint8_t` is the plain truncation, without wrap-around. -/
theorem mapTempToColor_rel_range (val minVal maxVal : ℚ) (h : minVal < maxVal) :
    0 ≤ relOf val minVal maxVal ∧ relOf val minVal maxVal ≤ 1
      ∧ (relOf val minVal maxVal < 1 / 2 →
          (0 ≤ 255 * (1 - relOf val minVal maxVal * 2)
            ∧ 255 * (1 - relOf val minVal maxVal * 2) ≤ 255
            ∧ (toUint8 (255 * (1 - relOf val minVal maxVal * 2)) : ℤ)
                = truncToInt (255 * (1 - relOf val minVal maxVal * 2)))
          ∧ (0 ≤ 255 * (relOf val minVal maxVal * 2)
            ∧ 255 * (relOf val minVal maxVal * 2) ≤ 255
            ∧ (toUint8 (255 * (relOf val minVal maxVal * 2)) : ℤ)
                = truncToInt (255 * (relOf val minVal maxVal * 2))))
      ∧ (¬ relOf val minVal maxVal < 1 / 2 →
          (0 ≤ 255 * (1 - (relOf val minVal maxVal - 1 / 2) * 2)
            ∧ 255 * (1 - (relOf val minVal maxVal - 1 / 2) * 2) ≤ 255
            ∧ (toUint8 (255 * (1 - (relOf val minVal maxVal - 1 / 2) * 2)) : ℤ)
                = truncToInt (255 * (1 - (relOf val minVal maxVal - 1 / 2) * 2)))
          ∧ (0 ≤ 255 * ((relOf val minVal maxVal - 1 / 2) * 2)
            ∧ 255 * ((relOf val minVal maxVal - 1 / 2) * 2) ≤ 255
            ∧ (toUint8 (255 * ((relOf val minVal maxVal - 1 / 2) * 2)) : ℤ)
                = truncToInt (255 * ((relOf val minVal maxVal - 1 / 2) * 2))))
      ∧ mapTempToColorRGB val minVal maxVal
          = if relOf val minVal maxVal < 1 / 2 then
              (0, toUint8 (255 * (relOf val minVal maxVal * 2)),
                toUint8 (255 * (1 - relOf val minVal maxVal * 2)))
            else
              (toUint8 (255 * ((relOf val minVal maxVal - 1 / 2) * 2)),
                toUint8 (255 * (1 - (relOf val minVal maxVal - 1 / 2) * 2)), 0) := by
  obtain ⟨h0, h1⟩ := relOf_mem val minVal maxVal h
  generalize hr : relOf val minVal maxVal = r at h0 h1
  have hmap := mapTempToColorRGB_eq_rel val minVal maxVal
  rw [hr] at hmap
  refine ⟨h0, h1, ?_, ?_, hmap⟩
  · intro hlt
    have a0 : 0 ≤ 255 * (1 - r * 2) := by linarith
    have a1 : 255 * (1 - r * 2) ≤ 255 := by linarith
    have b0 : 0 ≤ 255 * (r * 2) := by linarith
    have b1 : 255 * (r * 2) ≤ 255 := by linarith
    exact ⟨⟨a0, a1, toUint8_exact _ a0 a1⟩, ⟨b0, b1, toUint8_exact _ b0 b1⟩⟩
  · intro hge
    have hge2 : 1 / 2 ≤ r := not_lt.mp hge
    have a0 : 0 ≤ 255 * (1 - (r - 1 / 2) * 2) := by linarith
    have a1 : 255 * (1 - (r - 1 / 2) * 2) ≤ 255 := by linarith
    have b0 : 0 ≤ 255 * ((r - 1 / 2) * 2) := by linarith
    have b1 : 255 * ((r - 1 / 2) * 2) ≤ 255 := by linarith
    exact ⟨⟨a0, a1, toUint8_exact _ a0 a1⟩, ⟨b0, b1, toUint8_exact _ b0 b1⟩⟩

/-- Witness of C12: the value 55, outside the window (20, 40). -/
theorem mapTempToColor_rel_range_witness :
    (20 : ℚ) < 40 ∧ 0 ≤ relOf 55 20 40 ∧ relOf 55 20 40 ≤ 1 :=
  have h := mapTempToColor_rel_range 55 20 40 (by norm_num)
  ⟨by norm_num, h.1, h.2.1⟩

/-- C11: the trace of a successful iteration of `loop` is `SPI.beginTransaction`, then the 768
`fillRect` calls, then the calls of `drawInterface`, then `SPI.endTransaction`; the two
transaction calls occur exactly once each, and every rectangle, line and text write of the
iteration lies strictly between them. -/
theorem loop_transaction_bracket (tft : Tft) (s : State) (frame : Frame) :
    (loop tft s 0 frame).2
        = Op.spiBeginTransaction
            :: ((List.ofFn (cellRect tft frame (loop tft s 0 frame).1.minTemp
                  (loop tft s 0 frame).1.maxTemp)
                ++ drawInterface tft frame (loop tft s 0 frame).1.minTemp
                  (loop tft s 0 frame).1.maxTemp)
              ++ [Op.spiEndTransaction])
      ∧ (loop tft s 0 frame).2.count Op.spiBeginTransaction = 1
      ∧ (loop tft s 0 frame).2.count Op.spiEndTransaction = 1
      ∧ ∀ (i : ℕ) (op : Op), (loop tft s 0 frame).2[i]? = some op → op.isDisplayWrite = true →
          0 < i ∧ i + 1 < (loop tft s 0 frame).2.length := by
  have hc := count_bracket _
    (writes_no_bracket tft frame (autoRange frame).1 (autoRange frame).2)
  rw [loop_ok_minTemp, loop_ok_maxTemp, loop_trace]
  refine ⟨rfl, hc.1, hc.2, ?_⟩
  intro i op h hw
  refine bracket_index _ i op h ?_ ?_
  · intro e
    rw [e] at hw
    cases hw
  · intro e
    rw [e] at hw
    cases hw

/-- C14 as stated fails: on the frame whose 768 samples all equal 0.1f, which lie in
[-1000, 1000], step 2 of `loop` stores the rounded sum 9227469/8388608 as high end, not the
smallest sample plus 1. -/
theorem autoRangeFloat_refines_inf_counterexample :
    (∀ i : Fin 768, -1000 ≤ (fun _ => (13421773 / 134217728 : ℚ)) i
        ∧ (fun _ => (13421773 / 134217728 : ℚ)) i ≤ 1000)
      ∧ autoRangeFloat (fun _ => 13421773 / 134217728)
          = (13421773 / 134217728, 9227469 / 8388608)
      ∧ ¬ IsFrameRange (fun _ => 13421773 / 134217728)
          (autoRangeFloat (fun _ => 13421773 / 134217728)) := by
  refine ⟨fun _ => ⟨by norm_num, by norm_num⟩, autoRangeFloat_tenth, ?_⟩
  rw [autoRangeFloat_tenth]
  rintro ⟨_, largest, ⟨⟨i, hi⟩, _⟩, h⟩
  rw [← hi] at h
  norm_num at h

/-- C14, amended: for a frame whose 768 samples all lie in [-1000, 1000], step 2 of `loop`,
seeded with 1000 and -1000 and computed in the float arithmetic of the code, leaves the range of
the same pass seeded with the infinities; its low end is the smallest sample, and its high end is
the largest sample if the `float` difference of the two is at least 1, and otherwise the `float`
stored by `maxTemp = minTemp + 1.0`. -/
theorem autoRangeFloat_refines_inf (frame : Frame)
    (h : ∀ i, -1000 ≤ frame i ∧ frame i ≤ 1000) :
    autoRangeInfFloat frame = some (autoRangeFloat frame)
      ∧ IsFrameRangeFloat frame (autoRangeFloat frame) :=
  ⟨autoRangeInfFloat_eq frame (h _).1 (h _).2,
    autoRangeFloat_isFrameRange frame ⟨⟨0, by decide⟩, (h _).2⟩ ⟨⟨0, by decide⟩, (h _).1⟩⟩

/-- Witness of C14, amended: the frame whose samples all equal 30. -/
theorem autoRangeFloat_refines_inf_witness :
    (∀ i : Fin 768, -1000 ≤ (fun _ => (30 : ℚ)) i ∧ (fun _ => (30 : ℚ)) i ≤ 1000)
      ∧ autoRangeInfFloat (fun _ => 30) = some (autoRangeFloat (fun _ => 30)) :=
  ⟨fun _ => ⟨by norm_num, by norm_num⟩,
    (autoRangeFloat_refines_inf (fun _ => 30) (fun _ => ⟨by norm_num, by norm_num⟩)).1⟩

end IRCamera

namespace WeatherStation

/-! ## The icon branches -/

theorem startsWithChars_two (s : List Char) (a b : Char)
    (h : startsWithChars s [a, b] = true) : ∃ rest, s = a :: b :: rest := by
  match s, h with
  | [], h => exact absurd h (by simp [startsWithChars])
  | [_], h => exact absurd h (by simp [startsWithChars])
  | c1 :: c2 :: rest, h =>
    simp only [startsWithChars, Bool.and_true, Bool.and_eq_true, beq_iff_eq] at h
    exact ⟨rest, by rw [h.1, h.2]⟩

/-- Every icon code that starts with "09" takes the clouds branch. -/
theorem drawWeatherIcon_of_09 (icon_code : String) (x y color : ℤ)
    (h : startsWith icon_code "09" = true) :
    drawWeatherIcon icon_code x y color = cloudsIcon x y := by
  obtain ⟨rest, hr⟩ := startsWithChars_two icon_code.data '0' '9' h
  have h01 : startsWith icon_code "01" = false := by
    unfold startsWith
    rw [hr]
    rfl
  have h0 : startsWith icon_code "0" = true := by
    unfold startsWith
    rw [hr]
    rfl
  unfold drawWeatherIcon
  rw [h01, h0]
  rfl

/-- Every icon code that starts with "10" takes the rain branch. -/
theorem drawWeatherIcon_of_10 (icon_code : String) (x y color : ℤ)
    (h : startsWith icon_code "10" = true) :
    drawWeatherIcon icon_code x y color = rainIcon x y := by
  obtain ⟨rest, hr⟩ := startsWithChars_two icon_code.data '1' '0' h
  have h01 : startsWith icon_code "01" = false := by
    unfold startsWith
    rw [hr]
    rfl
  have h0 : startsWith icon_code "0" = false := by
    unfold startsWith
    rw [hr]
    rfl
  have h04 : startsWith icon_code "04" = false := by
    unfold startsWith
    rw [hr]
    rfl
  have h09 : startsWith icon_code "09" = false := by
    unfold startsWith
    rw [hr]
    rfl
  unfold drawWeatherIcon
  rw [h01, h0, h04, h09, h]
  rfl

/-- C13 fails on the code: the icon code "09d" starts with "09", yet `drawWeatherIcon` draws for
it the two-circle clouds icon and not the rain icon, because the clouds test
`startsWith("0")` comes first and accepts it; the icon code "10d" gets the rain icon. -/
theorem drawWeatherIcon_09d (x y color : ℤ) :
    startsWith "09d" "09" = true
      ∧ drawWeatherIcon "09d" x y color = cloudsIcon x y
      ∧ drawWeatherIcon "09d" x y color ≠ rainIcon x y
      ∧ drawWeatherIcon "10d" x y color = rainIcon x y := by
  refine ⟨rfl, rfl, ?_, rfl⟩
  intro h
  have hlen := congrArg List.length h
  cases hlen

end WeatherStation
